import Mathlib

/-!
Shallow embedding of the gonc core (circuit breaker, backoff runner,
port/tunnel-spec parsing, config validation, port scanner, and the custom
SSH forwarded-tcpip listener) together with proofs of the specification
claims about those components.  Every definition is translated from the
Go source; times are nanosecond integers, Go errors are a small inductive
capturing exactly the error shapes this code builds.
-/

/-- Model of the Go error values this repository constructs:
`errors.New` sentinels (compared by identity), `fmt.Errorf` without a
`%w` verb (plain message, no unwrap chain), `fmt.Errorf` with a trailing
`: %w` (a message prefix plus a wrapped cause), and the repository's
`retry.PermanentError` marker wrapper. -/
inductive GoError where
  | new (msg : String)
  | errorf (msg : String)
  | wrap (pre : String) (cause : GoError)
  | permanent (cause : GoError)
deriving Repr, DecidableEq

/-- The `Error()` string of a modelled Go error.  `PermanentError.Error`
returns the inner error's message; `fmt.Errorf` with `%w` concatenates
the prefix and the cause's message. -/
def GoError.msg : GoError → String
  | .new s => s
  | .errorf s => s
  | .wrap p c => p ++ c.msg
  | .permanent c => c.msg

/-- `errors.Unwrap`: one step of the unwrap chain.  Only the two wrapper
shapes implement `Unwrap` in the source. -/
def goUnwrap : GoError → Option GoError
  | .wrap _ c => some c
  | .permanent c => some c
  | _ => none

/-- `retry.IsPermanent`: `errors.As(err, &pe)` for `*PermanentError`,
walking the unwrap chain. -/
def isPermanent : GoError → Bool
  | .permanent _ => true
  | .wrap _ c => isPermanent c
  | _ => false

/-- `errors.Is(err, target)`: equality against the target, else recurse
into the unwrap chain.  Structural equality over-approximates Go's
pointer identity for sentinels, which is sound for the negative facts
proved here. -/
def errorsIs : GoError → GoError → Bool
  | e, target =>
    if e = target then true
    else match e with
      | .wrap _ c => errorsIs c target
      | .permanent c => errorsIs c target
      | _ => false

/-- The `ErrCircuitOpen` sentinel from `internal/errors`. -/
def errCircuitOpen : GoError := .new "circuit breaker is open"

deriving instance DecidableEq for Except

-- ── Circuit breaker (internal/retry/circuit_breaker.go) ──────────────

/-- Circuit breaker state: `StateClosed`, `StateOpen`, `StateHalfOpen`. -/
inductive CBState where
  | closed
  | open_
  | halfOpen
deriving Repr, DecidableEq

/-- The mutable fields of `retry.CircuitBreaker`.  `resetTimeout` and
`lastFailure` are nanosecond instants/durations; the counters are the Go
`int` fields, which these methods only ever set to 0 or increment. -/
structure CircuitBreaker where
  state : CBState
  failures : Nat
  successes : Nat
  maxFailures : Nat
  resetTimeout : Int
  halfOpenMax : Nat
  lastFailure : Int
deriving Repr, DecidableEq

/-- `transition`: change state, with the early return when `from == to`.
The `onStateChange` callback only observes the transition and cannot
alter the breaker's fields, so it is not part of the state model. -/
def CircuitBreaker.transition (cb : CircuitBreaker) (s : CBState) : CircuitBreaker :=
  if cb.state = s then cb else { cb with state := s }

/-- `Duration.Truncate(time.Second)`: round toward zero to a whole
second (the durations reaching it here are nonnegative). -/
def truncSec (d : Int) : Int := (d / 1000000000) * 1000000000

/-- Rendering of a nanosecond duration for the `%v` verb, as a whole
number of seconds.  Go groups units (for example `1m30s`); the claims
proved here depend only on the text before this suffix. -/
def durFmt (d : Int) : String := toString (d / 1000000000) ++ "s"

/-- The message built by `beforeRequest` when the circuit is open. -/
def circuitOpenMsg (failures : Nat) (remaining : Int) : String :=
  "circuit open: " ++ toString failures ++ " consecutive failures, retry in " ++
    durFmt remaining

/-- `beforeRequest` at instant `now`: in `StateOpen`, permit (moving to
half-open) once more than `resetTimeout` has passed since the last
failure, otherwise fail fast with the formatted error; in the other two
states, permit. -/
def CircuitBreaker.beforeRequest (cb : CircuitBreaker) (now : Int) :
    Option GoError × CircuitBreaker :=
  match cb.state with
  | .closed => (none, cb)
  | .open_ =>
    if now - cb.lastFailure > cb.resetTimeout then
      (none, cb.transition .halfOpen)
    else
      (some (.errorf (circuitOpenMsg cb.failures
        (truncSec (cb.resetTimeout - (now - cb.lastFailure))))), cb)
  | .halfOpen => (none, cb)

/-- `afterRequest` at instant `now`: on failure bump the failure counter,
zero successes, stamp `lastFailure`, and open the circuit from half-open
or once `maxFailures` is reached; on success bump the success counter,
close the circuit from half-open after `halfOpenMax` successes (zeroing
failures), and zero failures in the closed state. -/
def CircuitBreaker.afterRequest (cb : CircuitBreaker) (failed : Bool) (now : Int) :
    CircuitBreaker :=
  if failed then
    let cb1 := { cb with failures := cb.failures + 1, successes := 0, lastFailure := now }
    if cb1.state = CBState.halfOpen ∨ cb1.failures ≥ cb1.maxFailures then
      cb1.transition .open_
    else cb1
  else
    let cb1 := { cb with successes := cb.successes + 1 }
    match cb1.state with
    | .halfOpen =>
      if cb1.successes ≥ cb1.halfOpenMax then
        ({ cb1 with failures := 0 }).transition .closed
      else cb1
    | .closed => { cb1 with failures := 0 }
    | .open_ => cb1

/-- `Execute`: run `beforeRequest`; on rejection return its error without
invoking the callable; otherwise invoke the callable (whose outcome is
`fnErr`), run `afterRequest` on that outcome, and return it.  The result
is `(returned error, new breaker state, whether the callable ran)`;
`tBefore`/`tAfter` are the instants of the two lock sections. -/
def CircuitBreaker.execute (cb : CircuitBreaker) (fnErr : Option GoError)
    (tBefore tAfter : Int) : Option GoError × CircuitBreaker × Bool :=
  match cb.beforeRequest tBefore with
  | (some e, cb1) => (some e, cb1, false)
  | (none, cb1) => (fnErr, cb1.afterRequest fnErr.isSome tAfter, true)

/-- One `Execute` with a failing callable, keeping only the breaker. -/
def stepFail (cb : CircuitBreaker) (t : Int) : CircuitBreaker :=
  (cb.execute (some (.errorf "fail")) t t).2.1

/-- One `Execute` with a succeeding callable, keeping only the breaker. -/
def stepSuccess (cb : CircuitBreaker) (t : Int) : CircuitBreaker :=
  (cb.execute none t t).2.1

/-- A sequence of failing `Execute` calls at the given instants. -/
def foldFails (cb : CircuitBreaker) (ts : List Int) : CircuitBreaker :=
  ts.foldl stepFail cb

/-- A sequence of succeeding `Execute` calls at the given instants. -/
def foldSuccesses (cb : CircuitBreaker) (ts : List Int) : CircuitBreaker :=
  ts.foldl stepSuccess cb

-- ── Decimal rendering and parsing (strconv contract) ─────────────────

/-- Decimal digit character of `d` (the source relies on `strconv`;
this is its digit table for base 10). -/
def digitChar (d : Nat) : Char :=
  if d = 0 then '0' else if d = 1 then '1' else if d = 2 then '2'
  else if d = 3 then '3' else if d = 4 then '4' else if d = 5 then '5'
  else if d = 6 then '6' else if d = 7 then '7' else if d = 8 then '8' else '9'

/-- Whether a character is an ASCII decimal digit. -/
def isDigit (c : Char) : Bool := 48 ≤ c.toNat && c.toNat ≤ 57

/-- Accumulate the most significant digits of `n` in front of `acc`;
structural recursion on a fuel bound (any fuel `≥ n` is exact). -/
def natReprAux : Nat → Nat → List Char → List Char
  | 0, _, acc => acc
  | _ + 1, 0, acc => acc
  | fuel + 1, n + 1, acc =>
    natReprAux fuel ((n + 1) / 10) (digitChar ((n + 1) % 10) :: acc)

/-- Canonical decimal rendering of a natural number (`strconv.Itoa`). -/
def natRepr (n : Nat) : List Char :=
  if n = 0 then ['0'] else natReprAux n n []

/-- Decimal value of a digit list, most significant first. -/
def digitsValFrom (a : Nat) (cs : List Char) : Nat :=
  cs.foldl (fun acc c => acc * 10 + (c.toNat - 48)) a

/-- Decimal value of a digit list. -/
def digitsVal (cs : List Char) : Nat := digitsValFrom 0 cs

/-- `strconv.Atoi`: optional sign, then a nonempty run of digits, with
the 64-bit signed overflow cutoff (`ErrRange` is an error like any
other, so both failure kinds map to `none`). -/
def goAtoi (cs : List Char) : Option Int :=
  match cs with
  | [] => none
  | c :: rest =>
    let sd : Bool × List Char :=
      if c = '-' then (true, rest) else if c = '+' then (false, rest) else (false, cs)
    if sd.2 = [] then none
    else if sd.2.all isDigit then
      let v : Nat := digitsVal sd.2
      if sd.1 then (if v ≤ 2 ^ 63 then some (-(v : Int)) else none)
      else (if v < 2 ^ 63 then some (v : Int) else none)
    else none

/-- Decimal rendering of a Go `int` for `%d`. -/
def intRepr (i : Int) : String :=
  if i < 0 then "-" ++ String.mk (natRepr (-i).toNat) else String.mk (natRepr i.toNat)

-- ── Backoff runner (retry, Backoff.Do) ───────────────────────────────

/-- The tunables of `retry.Backoff`.  Durations are nanosecond integers.
The source's `Multiplier` is a `float64`; it is modelled as an integer
factor here — the claims proved about `Do` do not depend on the value of
any computed delay, only on the number of calls and of sleeps. -/
structure Backoff where
  initialDelay : Int
  maxDelay : Int
  multiplier : Int
  maxAttempts : Int
  jitter : Bool
deriving Repr, DecidableEq

/-- The observable outcome of one `Backoff.Do` run: the returned error
(`none` for nil), how many times the callable was invoked, and the
sequence of sleeps performed. -/
structure BackoffTrace where
  result : Option GoError
  calls : Nat
  sleeps : List Int
deriving Repr, DecidableEq

/-- `ctx.Err()` after cancellation. -/
def ctxCanceledErr : GoError := .new "context canceled"

/-- The loop body of `Backoff.Do`, made total with a fuel argument:
`none` means the fuel ran out while the Go loop would have kept
iterating (with `MaxAttempts = 0` the loop is unbounded).  `fn` gives
the callable's outcome per 1-based attempt, `ctxDone` whether the
context is cancelled when attempt `i` reaches its sleep, and `jf` the
jittered wait (`addJitter` draws from `math/rand`). -/
def backoffLoop (fn : Nat → Option GoError) (ctxDone : Nat → Bool)
    (jf : Nat → Int → Int) (b : Backoff) (mult maxD : Int) :
    Nat → Nat → Int → Nat → List Int → Option BackoffTrace
  | 0, _, _, _, _ => none
  | fuel + 1, attempt, delay, calls, sleeps =>
    match fn attempt with
    | none => some ⟨none, calls + 1, sleeps⟩
    | some err =>
      if isPermanent err then some ⟨goUnwrap err, calls + 1, sleeps⟩
      else if b.maxAttempts > 0 ∧ (attempt : Int) ≥ b.maxAttempts then
        some ⟨some (.wrap ("max retries (" ++ intRepr b.maxAttempts ++ ") exceeded: ") err),
          calls + 1, sleeps⟩
      else
        let wait := if b.jitter then jf attempt delay else delay
        if ctxDone attempt then
          some ⟨some (.wrap "retry cancelled: " ctxCanceledErr), calls + 1, sleeps⟩
        else
          let d2 := delay * mult
          backoffLoop fn ctxDone jf b mult maxD fuel (attempt + 1)
            (if d2 > maxD then maxD else d2) (calls + 1) (sleeps ++ [wait])

/-- `Backoff.Do`: normalise the zero-valued tunables to their defaults,
then run the retry loop from attempt 1. -/
def Backoff.doRun (b : Backoff) (fn : Nat → Option GoError) (ctxDone : Nat → Bool)
    (jf : Nat → Int → Int) (fuel : Nat) : Option BackoffTrace :=
  let delay := if b.initialDelay = 0 then 1000000000 else b.initialDelay
  let mult := if b.multiplier ≤ 0 then 2 else b.multiplier
  let maxD := if b.maxDelay = 0 then 60000000000 else b.maxDelay
  backoffLoop fn ctxDone jf b mult maxD fuel 1 delay 0 []

-- ── List-of-char string helpers (strings package contract) ───────────

/-- `strings.ContainsRune` over the byte/char list view of a string. -/
def goContains (cs : List Char) (c : Char) : Bool := cs.any (fun x => x = c)

/-- Split at the first occurrence of `sep`: the pair of the text before
it and the text after it (`strings.SplitN(s, sep, 2)`), returning
`(cs, [])` when `sep` does not occur. -/
def splitFirst (sep : Char) : List Char → List Char × List Char
  | [] => ([], [])
  | c :: rest =>
    if c = sep then ([], rest)
    else
      let p := splitFirst sep rest
      (c :: p.1, p.2)

-- ── Port specs (config, ParsePortSpec / PortRange.Expand) ────────────

/-- `config.PortRange`: an inclusive start-end pair of Go `int`s. -/
structure PortRange where
  start : Int
  end_ : Int
deriving Repr, DecidableEq

/-- `PortRange.Expand`: the loop `for p := Start; p <= End; p++`
appending each port, rendered as the arithmetic sequence it produces
(empty when `Start > End`). -/
def PortRange.expand (pr : PortRange) : List Int :=
  (List.range (pr.end_ + 1 - pr.start).toNat).map (fun i : Nat => pr.start + (i : Int))

/-- `config.ParsePortSpec`: a spec containing `-` is split at its first
dash into two `Atoi` calls plus the `1 ≤ start ≤ end ≤ 65535` range
check; otherwise a single `Atoi` plus the `1..65535` check. -/
def parsePortSpec (cs : List Char) : Except GoError PortRange :=
  if goContains cs '-' then
    let parts := splitFirst '-' cs
    match goAtoi parts.1 with
    | none => .error (.errorf ("invalid port range start \"" ++ String.mk parts.1 ++ "\""))
    | some s =>
      match goAtoi parts.2 with
      | none => .error (.errorf ("invalid port range end \"" ++ String.mk parts.2 ++ "\""))
      | some e =>
        if s < 1 ∨ e > 65535 ∨ s > e then
          .error (.errorf ("invalid port range " ++ intRepr s ++ "-" ++ intRepr e))
        else .ok ⟨s, e⟩
  else
    match goAtoi cs with
    | none => .error (.errorf ("invalid port \"" ++ String.mk cs ++ "\""))
    | some p =>
      if p < 1 ∨ p > 65535 then
        .error (.errorf ("port " ++ intRepr p ++ " out of range 1-65535"))
      else .ok ⟨p, p⟩

-- ── Tunnel specs (config, ParseTunnelSpec) ───────────────────────────

/-- Match of `([^:]+)(?::(\d+))?$` against `t` under RE2's
leftmost-greedy submatch rules: the host is the (nonempty) text before
the first colon — `[^:]+` cannot cross a colon and a shorter host would
have to be followed by an immediate colon — and when a colon is present
the remainder must be a nonempty digit run.  Returns `(host, port
digits)`, the digit list empty when the port group is absent. -/
def matchHostPort (t : List Char) : Option (List Char × List Char) :=
  if goContains t ':' then
    let p := splitFirst ':' t
    if p.1 = [] then none
    else if p.2 ≠ [] ∧ p.2.all isDigit then some (p.1, p.2)
    else none
  else if t = [] then none else some (t, [])

/-- Match of the anchored `tunnelRe` regex
`^(?:([^@]+)@)?([^:]+)(?::(\d+))?$` under leftmost-greedy submatch
rules.  The optional user group is tried first: `[^@]+` cannot contain
`@`, so its only candidate is the (nonempty) text before the first `@`;
if the rest fails to match, the group is dropped and the whole input is
matched as `host[:port]`.  Returns `(user, host, port digits)` with the
empty list for an absent group (Go's empty submatch string). -/
def tunnelMatch (s : List Char) : Option (List Char × List Char × List Char) :=
  let withUser : Option (List Char × List Char × List Char) :=
    if goContains s '@' then
      let p := splitFirst '@' s
      if p.1 ≠ [] then (matchHostPort p.2).map (fun hp => (p.1, hp.1, hp.2)) else none
    else none
  match withUser with
  | some r => some r
  | none => (matchHostPort s).map (fun hp => (([] : List Char), hp.1, hp.2))

/-- `config.ParseTunnelSpec`: run the regex; port defaults to 22 and,
when the digits group is present, must parse via `Atoi` into 1..65535;
an empty host is rejected (unreachable through the regex, kept from the
source). -/
def parseTunnelSpec (spec : List Char) :
    Except GoError (List Char × List Char × Int) :=
  match tunnelMatch spec with
  | none =>
    .error (.errorf ("invalid tunnel spec \"" ++ String.mk spec ++
      "\" - expected [user@]host[:port]"))
  | some (u, h, pd) =>
    let portRes : Except GoError Int :=
      if pd = [] then .ok 22
      else
        match goAtoi pd with
        | none => .error (.errorf ("invalid tunnel port \"" ++ String.mk pd ++ "\""))
        | some p =>
          if p < 1 ∨ p > 65535 then
            .error (.errorf ("invalid tunnel port \"" ++ String.mk pd ++ "\""))
          else .ok p
    match portRes with
    | .error e => .error e
    | .ok port =>
      if h = [] then .error (.errorf "tunnel host is required")
      else .ok (u, h, port)

/-- The canonical `user@host:port` spec string of a triple. -/
def canonicalTunnel (user host : List Char) (port : Nat) : List Char :=
  user ++ '@' :: host ++ ':' :: natRepr port

-- ── Configuration and validation (config, Config.Validate) ───────────

/-- `errors.ConfigError`: the `Value` field is `interface\x7b\x7d` in Go
and only ever holds the `int` remote port here. -/
structure ConfigError where
  field : String
  value : Option Int
  message : String
  hint : String
deriving Repr, DecidableEq

/-- `config.Config`: the fields consulted by `Validate`, with the Go
types rendered over `Int`/`String` (durations in nanoseconds). -/
structure Config where
  Host : String
  Port : Int
  Ports : List PortRange
  LocalPort : Int
  Listen : Bool
  UDP : Bool
  Timeout : Int
  KeepOpen : Bool
  NoDNS : Bool
  TunnelSpec : String
  TunnelEnabled : Bool
  TunnelUser : String
  TunnelHost : String
  TunnelPort : Int
  SSHKeyPath : String
  SSHPassword : Bool
  UseSSHAgent : Bool
  StrictHostKey : Bool
  KnownHostsPath : String
  TunnelLocalPort : Int
  ReverseTunnelSpec : String
  ReverseTunnelEnabled : Bool
  ReverseTunnelUser : String
  ReverseTunnelHost : String
  ReverseTunnelPort : Int
  RemotePort : Int
  RemoteBindAddress : String
  CheckGatewayPorts : Bool
  KeepAliveInterval : Int
  AutoReconnect : Bool
  Execute : String
  Command : String
  Verbose : Int
  ZeroIO : Bool
  DryRun : Bool
deriving Repr, DecidableEq

/-- `Config.Validate`: the exact chain of checks from the source, each
returning its structured `ConfigError`; `none` models a nil error. -/
def validate (c : Config) : Option ConfigError :=
  if c.Listen ∧ c.LocalPort = 0 then
    some ⟨"port", none, "required in listen mode",
      "specify a port with -p <port>, e.g.: gonc -l -p 8080"⟩
  else if c.Listen ∧ c.ZeroIO then
    some ⟨"zero-io", none, "listen mode and zero-I/O mode are mutually exclusive",
      "use -z without -l for port scanning"⟩
  else if c.Listen ∧ c.TunnelEnabled then
    some ⟨"tunnel", none, "listen mode through a forward SSH tunnel (-T) is not supported",
      "use -R for reverse tunnels instead"⟩
  else if ¬c.Listen ∧ c.Host = "" ∧ ¬c.ReverseTunnelEnabled then
    some ⟨"host", none, "hostname is required", "usage: gonc [options] <host> <port>"⟩
  else if ¬c.Listen ∧ c.Port = 0 ∧ c.Ports = [] ∧ ¬c.ReverseTunnelEnabled then
    some ⟨"port", none, "destination port is required",
      "usage: gonc <host> <port>, e.g.: gonc example.com 80"⟩
  else if c.ReverseTunnelEnabled ∧ ¬c.Listen then
    some ⟨"reverse-tunnel", none, "reverse tunnel requires listen mode",
      "-R implies -l automatically; this is an internal error"⟩
  else if c.ReverseTunnelEnabled ∧ c.RemotePort = 0 then
    some ⟨"remote-port", none, "required with -R",
      "e.g.: gonc -p 3000 -R serveo.net --remote-port 80"⟩
  else if c.ReverseTunnelEnabled ∧ (c.RemotePort < 1 ∨ c.RemotePort > 65535) then
    some ⟨"remote-port", some c.RemotePort, "out of range 1-65535", ""⟩
  else if c.ReverseTunnelEnabled ∧ c.ReverseTunnelHost = "" then
    some ⟨"reverse-tunnel", none, "tunnel host is required",
      "e.g.: gonc -R user@gateway --remote-port 9000 -p 8080"⟩
  else if c.ReverseTunnelEnabled ∧ c.TunnelEnabled then
    some ⟨"tunnel", none, "-T and -R are mutually exclusive",
      "use either forward tunnel (-T) or reverse tunnel (-R)"⟩
  else if c.ReverseTunnelEnabled ∧ c.UDP then
    some ⟨"udp", none, "reverse tunnel does not support UDP", ""⟩
  else if c.Execute ≠ "" ∧ c.Command ≠ "" then
    some ⟨"exec", none, "-e and -c are mutually exclusive",
      "use -e for a program or -c for a shell command, not both"⟩
  else if c.UDP ∧ c.TunnelEnabled then
    some ⟨"udp", none, "UDP is not supported through SSH tunnels", ""⟩
  else if c.TunnelEnabled ∧ c.TunnelHost = "" then
    some ⟨"tunnel", none, "tunnel host is required", "e.g.: gonc -T user@gateway host port"⟩
  else none

-- ── Port scanner (netcat/scanner.go, ScanPorts) ──────────────────────

/-- `netcat.ScanResult`. -/
structure ScanResult where
  port : Int
  open_ : Bool
  err : Option GoError
deriving Repr, DecidableEq

/-- `util.FormatAddr`, i.e. `net.JoinHostPort(host, strconv.Itoa port)`:
a host containing a colon is bracketed. -/
def formatAddr (host : String) (port : Int) : String :=
  if goContains host.data ':' then "[" ++ host ++ "]:" ++ intRepr port
  else host ++ ":" ++ intRepr port

/-- `netcat.ScanPorts`: one probe per input port, each dialling
`"tcp"`/`host:port` under its per-probe timeout context (the context is
part of the dial function's outcome here), writing `results[idx]` for
its own index; `wg.Wait()` returns only once every slot is written, so
the denotation is the index-aligned map below. -/
def scanPorts (host : String) (ports : List Int)
    (dial : String → String → Option GoError) : List ScanResult :=
  ports.map (fun p =>
    match dial "tcp" (formatAddr host p) with
    | some e => ⟨p, false, some e⟩
    | none => ⟨p, true, none⟩)

-- ── Custom SSH forward listener (tunnel, sshForwardListener) ─────────

/-- The `forwarded-tcpip` channel-open payload (RFC 4254 §7.2). -/
structure ForwardedTCPPayload where
  addr : String
  port : Nat
  originAddr : String
  originPort : Nat
deriving Repr, DecidableEq

/-- An inbound `ssh.NewChannel` as the listener sees it: the parse of
its extra data (`none` when `ssh.Unmarshal` fails) and the outcome of
`newCh.Accept()` on the SSH transport. -/
structure SSHNewChannel where
  payload : Option ForwardedTCPPayload
  acceptErr : Option GoError
deriving Repr, DecidableEq

/-- A modelled `net.TCPAddr`: the IP is kept as the source string that
`net.ParseIP` was applied to. -/
structure TCPAddrM where
  ip : String
  port : Nat
deriving Repr, DecidableEq

/-- The connection surfaced by the listener (`chanConn`): only its
remote address is relevant to the claims. -/
structure ChanConn where
  raddr : TCPAddrM
deriving Repr, DecidableEq

/-- One iteration of `sshForwardListener.Accept` on an inbound channel:
accept it unconditionally — the payload's bind fields are never
consulted — and set the remote address from `(OriginAddr, OriginPort)`
when the payload unmarshals, the zero address otherwise.  The only error
path is the transport's own channel-accept failure. -/
def sshForwardListenerAccept (newCh : SSHNewChannel) : Except GoError ChanConn :=
  match newCh.acceptErr with
  | some e => .error (.wrap "channel accept: " e)
  | none =>
    let raddr : TCPAddrM :=
      match newCh.payload with
      | some p => ⟨p.originAddr, p.originPort⟩
      | none => ⟨"", 0⟩
    .ok ⟨raddr⟩

/-- Replace the bind-address fields of a channel's payload, leaving the
origin fields alone. -/
def setBindFields (newCh : SSHNewChannel) (a : String) (p : Nat) : SSHNewChannel :=
  { newCh with payload := newCh.payload.map (fun pl => { pl with addr := a, port := p }) }




-- ── Lemmas: decimal digits ───────────────────────────────────────────

theorem digitsValFrom_cons (a : Nat) (c : Char) (cs : List Char) :
    digitsValFrom a (c :: cs) = digitsValFrom (a * 10 + (c.toNat - 48)) cs := rfl

theorem digitsValFrom_eq (cs : List Char) :
    ∀ a : Nat, digitsValFrom a cs = a * 10 ^ cs.length + digitsVal cs := by
  induction cs with
  | nil => intro a; simp [digitsValFrom, digitsVal]
  | cons c cs ih =>
    intro a
    rw [digitsValFrom_cons]
    have hv : digitsVal (c :: cs) = digitsValFrom (c.toNat - 48) cs := by
      show digitsValFrom 0 (c :: cs) = _
      rw [digitsValFrom_cons]
      norm_num
    rw [ih, hv, ih (c.toNat - 48), List.length_cons, pow_succ]
    ring

theorem digitChar_toNat (d : Nat) (h : d < 10) : (digitChar d).toNat = 48 + d := by
  interval_cases d <;> rfl

theorem isDigit_digitChar (d : Nat) : isDigit (digitChar d) = true := by
  unfold digitChar
  split_ifs <;> rfl

theorem natReprAux_val (fuel : Nat) :
    ∀ n acc, n ≤ fuel →
      digitsVal (natReprAux fuel n acc) = n * 10 ^ acc.length + digitsVal acc := by
  induction fuel with
  | zero =>
    intro n acc h
    obtain rfl : n = 0 := Nat.le_zero.mp h
    simp [natReprAux]
  | succ fuel ih =>
    intro n acc h
    match n with
    | 0 => simp [natReprAux]
    | n + 1 =>
      show digitsVal (natReprAux fuel ((n + 1) / 10)
        (digitChar ((n + 1) % 10) :: acc)) = _
      have hdiv : (n + 1) / 10 ≤ fuel := by
        have := Nat.div_lt_self (Nat.succ_pos n) (by decide : 1 < 10)
        omega
      rw [ih _ _ hdiv]
      have hv : digitsVal (digitChar ((n + 1) % 10) :: acc) =
          digitsValFrom ((n + 1) % 10) acc := by
        show digitsValFrom 0 _ = _
        rw [digitsValFrom_cons, digitChar_toNat _ (Nat.mod_lt _ (by decide))]
        norm_num
      rw [hv, digitsValFrom_eq, List.length_cons, pow_succ]
      have e : 10 * ((n + 1) / 10) + (n + 1) % 10 = n + 1 := Nat.div_add_mod (n + 1) 10
      set q := (n + 1) / 10 with hq
      set r := (n + 1) % 10 with hr
      rw [← e]
      ring

theorem natReprAux_all_digits (fuel : Nat) :
    ∀ n acc, acc.all isDigit = true → (natReprAux fuel n acc).all isDigit = true := by
  induction fuel with
  | zero => intro n acc h; simpa [natReprAux] using h
  | succ fuel ih =>
    intro n acc h
    match n with
    | 0 => simpa [natReprAux] using h
    | n + 1 =>
      show (natReprAux fuel ((n + 1) / 10) (digitChar ((n + 1) % 10) :: acc)).all isDigit = true
      exact ih _ _ (by simp [List.all_cons, h, isDigit_digitChar])

theorem natReprAux_ne_nil (fuel : Nat) :
    ∀ n acc, (1 ≤ n ∧ n ≤ fuel) ∨ acc ≠ [] → natReprAux fuel n acc ≠ [] := by
  induction fuel with
  | zero =>
    intro n acc h
    have hacc : acc ≠ [] := by
      rcases h with ⟨h1, h2⟩ | hx
      · omega
      · exact hx
    exact hacc
  | succ fuel ih =>
    intro n acc h
    match n with
    | 0 =>
      have hacc : acc ≠ [] := by
        rcases h with ⟨h1, _⟩ | hx
        · omega
        · exact hx
      exact hacc
    | n + 1 =>
      show natReprAux fuel ((n + 1) / 10) (digitChar ((n + 1) % 10) :: acc) ≠ []
      exact ih _ _ (Or.inr (by simp))

theorem natRepr_all_digits (n : Nat) : (natRepr n).all isDigit = true := by
  unfold natRepr
  split_ifs with h
  · rfl
  · exact natReprAux_all_digits n n [] rfl

theorem natRepr_ne_nil (n : Nat) : natRepr n ≠ [] := by
  unfold natRepr
  split_ifs with h
  · simp
  · exact natReprAux_ne_nil n n [] (Or.inl ⟨by omega, le_refl n⟩)

theorem digitsVal_natRepr (n : Nat) : digitsVal (natRepr n) = n := by
  unfold natRepr
  split_ifs with h
  · subst h; rfl
  · have := natReprAux_val n n [] (le_refl n)
    simpa [digitsVal, digitsValFrom] using this

theorem goAtoi_natRepr (n : Nat) (h : n < 2 ^ 63) : goAtoi (natRepr n) = some (n : Int) := by
  obtain ⟨c, rest, hcr⟩ : ∃ c rest, natRepr n = c :: rest := by
    cases hnr : natRepr n with
    | nil => exact absurd hnr (natRepr_ne_nil n)
    | cons c rest => exact ⟨c, rest, rfl⟩
  have hall := natRepr_all_digits n
  have hc : isDigit c = true := by
    rw [hcr, List.all_cons] at hall
    exact (Bool.and_eq_true_iff.mp hall).1
  have hcm : ¬(c = '-') := by
    intro he; rw [he] at hc; exact absurd hc (by decide)
  have hcp : ¬(c = '+') := by
    intro he; rw [he] at hc; exact absurd hc (by decide)
  rw [hcr]
  show goAtoi (c :: rest) = some (n : Int)
  unfold goAtoi
  simp only [if_neg hcm, if_neg hcp]
  have hne : ¬(c :: rest = ([] : List Char)) := by simp
  rw [if_neg hne, if_pos (hcr ▸ hall)]
  have hval : digitsVal (c :: rest) = n := hcr ▸ digitsVal_natRepr n
  simp only [hval, if_pos h]
  rfl

-- ── Lemmas: contains / split ─────────────────────────────────────────

theorem goContains_append_cons (xs ys : List Char) (sep : Char) :
    goContains (xs ++ sep :: ys) sep = true := by
  simp [goContains]

theorem goContains_cons (c : Char) (cs : List Char) (sep : Char) :
    goContains (c :: cs) sep = (decide (c = sep) || goContains cs sep) := by
  simp [goContains]

theorem splitFirst_append (sep : Char) (xs ys : List Char)
    (h : goContains xs sep = false) : splitFirst sep (xs ++ sep :: ys) = (xs, ys) := by
  induction xs with
  | nil => simp [splitFirst]
  | cons c xs ih =>
    rw [goContains_cons] at h
    have hc : ¬(c = sep) := by
      intro he
      simp [he] at h
    have hxs : goContains xs sep = false := by
      simpa [hc] using h
    simp [splitFirst, hc, ih hxs]

theorem goContains_false_of_all_digits (cs : List Char)
    (hall : cs.all isDigit = true) (c : Char) (hc : isDigit c = false) :
    goContains cs c = false := by
  rw [goContains, List.any_eq_false]
  intro x hx
  have hxd : isDigit x = true := by
    rw [List.all_eq_true] at hall
    exact hall x hx
  simp only [decide_eq_true_eq]
  intro he
  rw [he, hc] at hxd
  exact Bool.false_ne_true hxd

theorem natRepr_not_contains (n : Nat) (c : Char) (hc : isDigit c = false) :
    goContains (natRepr n) c = false :=
  goContains_false_of_all_digits _ (natRepr_all_digits n) c hc

-- ── Lemmas: port-range expansion ─────────────────────────────────────

theorem expand_length (a b : Int) :
    (PortRange.mk a b).expand.length = (b + 1 - a).toNat := by
  unfold PortRange.expand
  rw [List.length_map, List.length_range]

theorem expand_pairwise (pr : PortRange) :
    List.Pairwise (fun x y : Int => x < y) pr.expand := by
  unfold PortRange.expand
  rw [List.pairwise_map]
  have h := List.pairwise_lt_range (pr.end_ + 1 - pr.start).toNat
  refine h.imp ?_
  intro x y hxy
  omega

theorem expand_mem (pr : PortRange) (p : Int) :
    p ∈ pr.expand ↔ pr.start ≤ p ∧ p ≤ pr.end_ ∧ pr.start ≤ pr.end_ := by
  unfold PortRange.expand
  simp only [List.mem_map, List.mem_range]
  constructor
  · rintro ⟨i, hi, rfl⟩
    refine ⟨by omega, by omega, by omega⟩
  · rintro ⟨h1, h2, h3⟩
    refine ⟨(p - pr.start).toNat, by omega, by omega⟩

theorem goAtoi_natRepr_general (n : Nat) :
    goAtoi (natRepr n) = if n < 2 ^ 63 then some (n : Int) else none := by
  obtain ⟨c, rest, hcr⟩ : ∃ c rest, natRepr n = c :: rest := by
    cases hnr : natRepr n with
    | nil => exact absurd hnr (natRepr_ne_nil n)
    | cons c rest => exact ⟨c, rest, rfl⟩
  have hall := natRepr_all_digits n
  have hc : isDigit c = true := by
    rw [hcr, List.all_cons] at hall
    exact (Bool.and_eq_true_iff.mp hall).1
  have hcm : ¬(c = '-') := by
    intro he; rw [he] at hc; exact absurd hc (by decide)
  have hcp : ¬(c = '+') := by
    intro he; rw [he] at hc; exact absurd hc (by decide)
  rw [hcr]
  show goAtoi (c :: rest) = _
  unfold goAtoi
  simp only [if_neg hcm, if_neg hcp]
  have hne : ¬(c :: rest = ([] : List Char)) := by simp
  rw [if_neg hne, if_pos (hcr ▸ hall)]
  have hval : digitsVal (c :: rest) = n := hcr ▸ digitsVal_natRepr n
  simp only [hval]
  by_cases h : n < 2 ^ 63 <;> simp [h]

/-- Claim C5: every spec `"a-b"` with `1 ≤ a ≤ b ≤ 65535` parses to the
range `(a, b)` without error; its expansion has exactly `b − a + 1`
ports, strictly increasing, and contains precisely the ports `a..b`;
and every `"a-b"` spec violating `1 ≤ a ≤ b ≤ 65535` is rejected with
an error. -/
theorem parse_port_spec_ok (a b : Nat) (h1 : 1 ≤ a) (h2 : a ≤ b) (h3 : b ≤ 65535) :
    parsePortSpec (natRepr a ++ '-' :: natRepr b) =
      .ok (PortRange.mk (a : Int) (b : Int)) ∧
    (PortRange.mk (a : Int) (b : Int)).expand.length = b - a + 1 ∧
    List.Pairwise (fun x y : Int => x < y) (PortRange.mk (a : Int) (b : Int)).expand ∧
    (∀ p : Int, p ∈ (PortRange.mk (a : Int) (b : Int)).expand ↔ (a : Int) ≤ p ∧ p ≤ (b : Int)) ∧
    (∀ a' b' : Nat, ¬(1 ≤ a' ∧ a' ≤ b' ∧ b' ≤ 65535) →
      ∃ e, parsePortSpec (natRepr a' ++ '-' :: natRepr b') = .error e) := by
  have hnca : goContains (natRepr a) '-' = false := natRepr_not_contains a '-' (by decide)
  refine ⟨?_, ?_, expand_pairwise _, ?_, ?_⟩
  · unfold parsePortSpec
    rw [if_pos (goContains_append_cons _ _ _), splitFirst_append '-' _ _ hnca]
    simp only [goAtoi_natRepr a (by omega : a < 2 ^ 63), goAtoi_natRepr b (by omega : b < 2 ^ 63)]
    rw [if_neg (by omega)]
  · rw [expand_length]
    omega
  · intro p
    rw [expand_mem]
    constructor
    · rintro ⟨x1, x2, _⟩; exact ⟨x1, x2⟩
    · rintro ⟨x1, x2⟩
      refine ⟨x1, x2, ?_⟩
      show (a : Int) ≤ (b : Int)
      omega
  · intro a' b' hviol
    have hnca' : goContains (natRepr a') '-' = false := natRepr_not_contains a' '-' (by decide)
    unfold parsePortSpec
    rw [if_pos (goContains_append_cons _ _ _), splitFirst_append '-' _ _ hnca']
    simp only [goAtoi_natRepr_general a', goAtoi_natRepr_general b']
    by_cases ha : a' < 2 ^ 63
    · by_cases hb : b' < 2 ^ 63
      · simp only [if_pos ha, if_pos hb]
        rw [if_pos (by omega)]
        exact ⟨_, rfl⟩
      · simp only [if_pos ha, if_neg hb]
        exact ⟨_, rfl⟩
    · simp only [if_neg ha]
      exact ⟨_, rfl⟩

theorem parse_port_spec_ok_witness :
    parsePortSpec (natRepr 3 ++ '-' :: natRepr 6) = .ok (PortRange.mk 3 6) ∧
    (PortRange.mk 3 6).expand.length = 4 := by
  have h := parse_port_spec_ok 3 6 (by decide) (by decide) (by decide)
  exact ⟨h.1, h.2.1⟩

-- ── Lemmas: tunnel-spec matching ─────────────────────────────────────

theorem goContains_append (xs ys : List Char) (c : Char) :
    goContains (xs ++ ys) c = (goContains xs c || goContains ys c) := by
  simp [goContains]

theorem matchHostPort_nil : matchHostPort [] = none := rfl

theorem matchHostPort_no_colon (h : List Char) (hh : h ≠ [])
    (hhc : goContains h ':' = false) : matchHostPort h = some (h, []) := by
  unfold matchHostPort
  rw [if_neg (by simp [hhc]), if_neg hh]

theorem matchHostPort_with_port (h pd : List Char) (hh : h ≠ [])
    (hhc : goContains h ':' = false) (hpd : pd ≠ []) (hpdd : pd.all isDigit = true) :
    matchHostPort (h ++ ':' :: pd) = some (h, pd) := by
  unfold matchHostPort
  rw [if_pos (by simp [goContains_append_cons]), splitFirst_append ':' _ _ hhc]
  simp [hh, hpd, hpdd]

theorem tunnelMatch_canonical (user host pd : List Char)
    (hu : user ≠ []) (hua : goContains user '@' = false)
    (hh : host ≠ []) (hhc : goContains host ':' = false)
    (hpd : pd ≠ []) (hpdd : pd.all isDigit = true) :
    tunnelMatch (user ++ '@' :: host ++ ':' :: pd) = some (user, host, pd) := by
  unfold tunnelMatch
  simp [goContains_append_cons, splitFirst_append '@' user (host ++ ':' :: pd) hua,
    matchHostPort_with_port host pd hh hhc hpd hpdd, hu]

theorem tunnelMatch_host_only (h : List Char) (hh : h ≠ [])
    (hha : goContains h '@' = false) (hhc : goContains h ':' = false) :
    tunnelMatch h = some ([], h, []) := by
  unfold tunnelMatch
  rw [if_neg (by simp [hha])]
  simp [matchHostPort_no_colon h hh hhc]

/-- Claim C6 (counterexample): the round-trip claim quantifies over every
user string; for the empty user the canonical spec `"@h:80"` does not
parse back to `(\"\", \"h\", 80)` — the regex folds the `@` into the
host, yielding host `"@h"`. -/
theorem tunnel_round_trip_cex :
    parseTunnelSpec (canonicalTunnel [] ['h'] 80) ≠
      Except.ok (([] : List Char), (['h'] : List Char), (80 : Int)) ∧
    parseTunnelSpec (canonicalTunnel [] ['h'] 80) =
      Except.ok (([] : List Char), (['@', 'h'] : List Char), (80 : Int)) := by
  constructor
  · decide
  · decide

/-- Claim C6 (amended): for every user that is nonempty and free of `@`,
host that is nonempty and free of `:`, and port in 1..65535, the
canonical `user@host:port` string parses back to exactly
`(user, host, port)`; and every nonempty host free of `@` and `:`
parses alone to that host with empty user and port 22. -/
theorem tunnel_round_trip (user host : List Char) (port : Nat)
    (hu : user ≠ []) (hua : goContains user '@' = false)
    (hh : host ≠ []) (hhc : goContains host ':' = false)
    (hp1 : 1 ≤ port) (hp2 : port ≤ 65535) :
    parseTunnelSpec (canonicalTunnel user host port) =
      .ok (user, host, (port : Int)) ∧
    (∀ h2 : List Char, h2 ≠ [] → goContains h2 '@' = false →
      goContains h2 ':' = false → parseTunnelSpec h2 = .ok ([], h2, (22 : Int))) := by
  constructor
  · unfold parseTunnelSpec canonicalTunnel
    rw [tunnelMatch_canonical user host (natRepr port) hu hua hh hhc
      (natRepr_ne_nil port) (natRepr_all_digits port)]
    simp [natRepr_ne_nil port, goAtoi_natRepr port (by omega : port < 2 ^ 63), hh]
    rw [if_neg (by omega)]
  · intro h2 hh2 hh2a hh2c
    unfold parseTunnelSpec
    rw [tunnelMatch_host_only h2 hh2 hh2a hh2c]
    simp [hh2]

theorem tunnel_round_trip_witness :
    parseTunnelSpec (canonicalTunnel ['u'] ['h'] 2222) =
      .ok ((['u'] : List Char), (['h'] : List Char), (2222 : Int)) ∧
    parseTunnelSpec ['h', 'x'] = .ok (([] : List Char), (['h', 'x'] : List Char), (22 : Int)) := by
  have h := tunnel_round_trip ['u'] ['h'] 2222 (by decide) (by decide) (by decide)
    (by decide) (by decide) (by decide)
  exact ⟨h.1, h.2 ['h', 'x'] (by decide) (by decide) (by decide)⟩

/-- Claim C10 (counterexample): the claim quantifies over every nonempty
`@`-terminated spec; `"a:1@"` is one, yet the parser rejects it instead
of returning it whole as the host — the colon makes both regex
alternatives fail. -/
theorem tunnel_at_suffix_cex :
    parseTunnelSpec ['a', ':', '1', '@'] =
      Except.error (.errorf "invalid tunnel spec \"a:1@\" - expected [user@]host[:port]") ∧
    parseTunnelSpec ['a', ':', '1', '@'] ≠
      Except.ok (([] : List Char), (['a', ':', '1', '@'] : List Char), (22 : Int)) := by
  constructor
  · decide
  · decide

/-- Claim C10 (amended): for every spec of the form `w ++ "@"` where `w`
contains neither `@` nor `:`, the parser succeeds and returns an empty
user, the entire input including the trailing `@` as the host, and
port 22. -/
theorem tunnel_at_suffix (w : List Char) (hwa : goContains w '@' = false)
    (hwc : goContains w ':' = false) :
    parseTunnelSpec (w ++ ['@']) = .ok ([], w ++ ['@'], (22 : Int)) := by
  by_cases hw : w = []
  · subst hw
    decide
  · have hnc : goContains (w ++ ['@']) ':' = false := by
      rw [goContains_append, hwc]
      decide
    have hm : tunnelMatch (w ++ ['@']) = some ([], w ++ ['@'], []) := by
      unfold tunnelMatch
      rw [if_pos (by simp [goContains_append_cons w [] '@'])]
      have hs : splitFirst '@' (w ++ ['@']) = (w, []) := splitFirst_append '@' w [] hwa
      simp [hs, hw, matchHostPort_nil,
        matchHostPort_no_colon (w ++ ['@']) (by simp) hnc]
    unfold parseTunnelSpec
    rw [hm]
    simp

theorem tunnel_at_suffix_witness :
    parseTunnelSpec (['u', 's', 'e', 'r'] ++ ['@']) =
      .ok (([] : List Char), (['u', 's', 'e', 'r', '@'] : List Char), (22 : Int)) :=
  tunnel_at_suffix ['u', 's', 'e', 'r'] (by decide) (by decide)

-- ── Lemmas: circuit breaker steps ────────────────────────────────────

theorem execute_closed (cb : CircuitBreaker) (fnErr : Option GoError) (tB tA : Int)
    (h : cb.state = .closed) :
    cb.execute fnErr tB tA = (fnErr, cb.afterRequest fnErr.isSome tA, true) := by
  unfold CircuitBreaker.execute CircuitBreaker.beforeRequest
  simp [h]

theorem execute_halfOpen (cb : CircuitBreaker) (fnErr : Option GoError) (tB tA : Int)
    (h : cb.state = .halfOpen) :
    cb.execute fnErr tB tA = (fnErr, cb.afterRequest fnErr.isSome tA, true) := by
  unfold CircuitBreaker.execute CircuitBreaker.beforeRequest
  simp [h]

theorem stepFail_closed_lt (cb : CircuitBreaker) (t : Int) (h : cb.state = .closed)
    (hlt : cb.failures + 1 < cb.maxFailures) :
    stepFail cb t = { cb with failures := cb.failures + 1, successes := 0, lastFailure := t } := by
  unfold stepFail
  rw [execute_closed cb _ t t h]
  unfold CircuitBreaker.afterRequest
  simp [h]
  omega

theorem stepFail_closed_ge (cb : CircuitBreaker) (t : Int) (h : cb.state = .closed)
    (hge : cb.failures + 1 ≥ cb.maxFailures) :
    stepFail cb t =
      { cb with
          failures := cb.failures + 1
          successes := 0
          lastFailure := t
          state := .open_ } := by
  unfold stepFail
  rw [execute_closed cb _ t t h]
  unfold CircuitBreaker.afterRequest CircuitBreaker.transition
  simp [h]
  omega

theorem stepFail_halfOpen (cb : CircuitBreaker) (t : Int) (h : cb.state = .halfOpen) :
    stepFail cb t =
      { cb with
          failures := cb.failures + 1
          successes := 0
          lastFailure := t
          state := .open_ } := by
  unfold stepFail
  rw [execute_halfOpen cb _ t t h]
  unfold CircuitBreaker.afterRequest CircuitBreaker.transition
  simp [h]

theorem stepSuccess_closed (cb : CircuitBreaker) (t : Int) (h : cb.state = .closed) :
    stepSuccess cb t = { cb with successes := cb.successes + 1, failures := 0 } := by
  unfold stepSuccess
  rw [execute_closed cb none t t h]
  unfold CircuitBreaker.afterRequest
  simp [h]

theorem stepSuccess_halfOpen_lt (cb : CircuitBreaker) (t : Int) (h : cb.state = .halfOpen)
    (hlt : cb.successes + 1 < cb.halfOpenMax) :
    stepSuccess cb t = { cb with successes := cb.successes + 1 } := by
  unfold stepSuccess
  rw [execute_halfOpen cb none t t h]
  unfold CircuitBreaker.afterRequest
  simp [h]
  omega

theorem stepSuccess_halfOpen_ge (cb : CircuitBreaker) (t : Int) (h : cb.state = .halfOpen)
    (hge : cb.successes + 1 ≥ cb.halfOpenMax) :
    stepSuccess cb t =
      { cb with
          successes := cb.successes + 1
          failures := 0
          state := .closed } := by
  unfold stepSuccess
  rw [execute_halfOpen cb none t t h]
  unfold CircuitBreaker.afterRequest CircuitBreaker.transition
  simp [h]
  omega

theorem beforeRequest_open_elapsed (cb : CircuitBreaker) (now : Int)
    (h : cb.state = .open_) (he : now - cb.lastFailure > cb.resetTimeout) :
    cb.beforeRequest now = (none, { cb with state := .halfOpen }) := by
  unfold CircuitBreaker.beforeRequest CircuitBreaker.transition
  simp [h, he]

theorem foldFails_closed_opens (ts : List Int) :
    ∀ cb : CircuitBreaker, cb.state = .closed →
      cb.failures + ts.length = cb.maxFailures → ts ≠ [] →
      (foldFails cb ts).state = .open_ ∧ (foldFails cb ts).failures = cb.maxFailures := by
  induction ts with
  | nil => intro cb _ _ h3; exact absurd rfl h3
  | cons t ts ih =>
    intro cb h1 h2 _
    rw [List.length_cons] at h2
    have hstep : foldFails cb (t :: ts) = foldFails (stepFail cb t) ts := rfl
    rw [hstep]
    by_cases hts : ts = []
    · subst hts
      simp only [List.length_nil] at h2
      rw [stepFail_closed_ge cb t h1 (by omega)]
      refine ⟨rfl, ?_⟩
      show cb.failures + 1 = cb.maxFailures
      omega
    · have hpos : 1 ≤ ts.length := List.length_pos.mpr hts
      have hlt : cb.failures + 1 < cb.maxFailures := by omega
      rw [stepFail_closed_lt cb t h1 hlt]
      refine ih _ h1 ?_ hts
      show cb.failures + 1 + ts.length = cb.maxFailures
      omega

theorem foldSuccesses_halfOpen_closes (ts : List Int) :
    ∀ cb : CircuitBreaker, cb.state = .halfOpen →
      cb.successes + ts.length = cb.halfOpenMax → ts ≠ [] →
      (foldSuccesses cb ts).state = .closed ∧ (foldSuccesses cb ts).failures = 0 := by
  induction ts with
  | nil => intro cb _ _ h3; exact absurd rfl h3
  | cons t ts ih =>
    intro cb h1 h2 _
    rw [List.length_cons] at h2
    have hstep : foldSuccesses cb (t :: ts) = foldSuccesses (stepSuccess cb t) ts := rfl
    rw [hstep]
    by_cases hts : ts = []
    · subst hts
      simp only [List.length_nil] at h2
      rw [stepSuccess_halfOpen_ge cb t h1 (by omega)]
      exact ⟨rfl, rfl⟩
    · have hpos : 1 ≤ ts.length := List.length_pos.mpr hts
      have hlt : cb.successes + 1 < cb.halfOpenMax := by omega
      rw [stepSuccess_halfOpen_lt cb t h1 hlt]
      refine ih _ h1 ?_ hts
      show cb.successes + 1 + ts.length = cb.halfOpenMax
      omega

/-- Claim C1: the circuit breaker realises the specified state machine.
From `Closed` with a zeroed failure counter, `MaxFailures` consecutive
failures open the circuit; in `Open`, once the reset timeout since the
last failure has elapsed, the next call transitions to `HalfOpen` (and
is permitted); from `HalfOpen` with a zeroed success counter,
`HalfOpenMax` consecutive successes reset the failure counter and close
the circuit; any failure in `HalfOpen` reopens it; and a single success
in `Closed` resets the consecutive-failure counter. -/
theorem circuit_breaker_state_machine :
    (∀ (cb : CircuitBreaker) (ts : List Int), cb.state = .closed → cb.failures = 0 →
      ts.length = cb.maxFailures → 1 ≤ cb.maxFailures →
      (foldFails cb ts).state = .open_ ∧ (foldFails cb ts).failures = cb.maxFailures) ∧
    (∀ (cb : CircuitBreaker) (now : Int), cb.state = .open_ →
      now - cb.lastFailure > cb.resetTimeout →
      cb.beforeRequest now = (none, { cb with state := .halfOpen })) ∧
    (∀ (cb : CircuitBreaker) (ts : List Int), cb.state = .halfOpen → cb.successes = 0 →
      ts.length = cb.halfOpenMax → 1 ≤ cb.halfOpenMax →
      (foldSuccesses cb ts).state = .closed ∧ (foldSuccesses cb ts).failures = 0) ∧
    (∀ (cb : CircuitBreaker) (t : Int), cb.state = .halfOpen →
      (stepFail cb t).state = .open_) ∧
    (∀ (cb : CircuitBreaker) (t : Int), cb.state = .closed →
      (stepSuccess cb t).failures = 0 ∧ (stepSuccess cb t).state = .closed) := by
  refine ⟨?_, ?_, ?_, ?_, ?_⟩
  · intro cb ts h1 h0 hlen hmax
    refine foldFails_closed_opens ts cb h1 (by omega) ?_
    intro he
    subst he
    simp only [List.length_nil] at hlen
    omega
  · intro cb now h he
    exact beforeRequest_open_elapsed cb now h he
  · intro cb ts h1 h0 hlen hmax
    refine foldSuccesses_halfOpen_closes ts cb h1 (by omega) ?_
    intro he
    subst he
    simp only [List.length_nil] at hlen
    omega
  · intro cb t h
    rw [stepFail_halfOpen cb t h]
  · intro cb t h
    rw [stepSuccess_closed cb t h]
    exact ⟨rfl, h⟩

theorem circuit_breaker_state_machine_witness :
    (foldFails ⟨.closed, 0, 0, 2, 30, 2, 0⟩ [1, 2]).state = .open_ ∧
    CircuitBreaker.beforeRequest ⟨.open_, 2, 0, 2, 30, 2, 5⟩ 100 =
      (none, ⟨.halfOpen, 2, 0, 2, 30, 2, 5⟩) ∧
    (foldSuccesses ⟨.halfOpen, 3, 0, 2, 30, 2, 5⟩ [7, 8]).state = .closed ∧
    (stepFail ⟨.halfOpen, 0, 1, 2, 30, 2, 5⟩ 9).state = .open_ ∧
    (stepSuccess ⟨.closed, 1, 0, 2, 30, 2, 5⟩ 9).failures = 0 := by
  obtain ⟨p1, p2, p3, p4, p5⟩ := circuit_breaker_state_machine
  exact ⟨(p1 ⟨.closed, 0, 0, 2, 30, 2, 0⟩ [1, 2] rfl rfl rfl (by decide)).1,
    p2 ⟨.open_, 2, 0, 2, 30, 2, 5⟩ 100 rfl (by decide),
    (p3 ⟨.halfOpen, 3, 0, 2, 30, 2, 5⟩ [7, 8] rfl rfl rfl (by decide)).1,
    p4 ⟨.halfOpen, 0, 1, 2, 30, 2, 5⟩ 9 rfl,
    (p5 ⟨.closed, 1, 0, 2, 30, 2, 5⟩ 9 rfl).1⟩

/-- Claim C2 (counterexample): with the breaker open and the reset
timeout not yet elapsed, `Execute` does fail fast without invoking the
callable, but the returned error is the plain
`fmt.Errorf("circuit open: …")` value — it does not wrap the
`ErrCircuitOpen` sentinel, so an `errors.Is` check cannot match it. -/
theorem circuit_open_sentinel_cex :
    ((⟨.open_, 1, 0, 5, 30000000000, 2, 0⟩ : CircuitBreaker).execute
      (some (.errorf "f")) 1000000000 1000000000).2.2 = false ∧
    ((⟨.open_, 1, 0, 5, 30000000000, 2, 0⟩ : CircuitBreaker).execute
      (some (.errorf "f")) 1000000000 1000000000).1 =
      some (.errorf "circuit open: 1 consecutive failures, retry in 29s") ∧
    errorsIs (.errorf "circuit open: 1 consecutive failures, retry in 29s")
      errCircuitOpen = false := by
  refine ⟨?_, ?_, ?_⟩ <;> decide

/-- Claim C2 (amended): for every `Execute` call made while the breaker
is `Open` and the reset timeout since the last failure has not yet
elapsed, the callable is not invoked, the breaker state is unchanged,
and `Execute` fails fast with the formatted error
`"circuit open: N consecutive failures, retry in T"`; that error is
plain `fmt.Errorf` output that does not wrap the `ErrCircuitOpen`
sentinel, so it is not matchable by an is-check. -/
theorem circuit_open_fail_fast (cb : CircuitBreaker) (fnErr : Option GoError)
    (tB tA : Int) (h : cb.state = .open_) (he : tB - cb.lastFailure ≤ cb.resetTimeout) :
    (cb.execute fnErr tB tA).2.2 = false ∧
    (cb.execute fnErr tB tA).2.1 = cb ∧
    (∃ T : String,
      (cb.execute fnErr tB tA).1 =
        some (.errorf ("circuit open: " ++ toString cb.failures ++
          " consecutive failures, retry in " ++ T))) ∧
    (∀ e : GoError, (cb.execute fnErr tB tA).1 = some e →
      errorsIs e errCircuitOpen = false) := by
  have hbr : cb.beforeRequest tB = (some (.errorf (circuitOpenMsg cb.failures
      (truncSec (cb.resetTimeout - (tB - cb.lastFailure))))), cb) := by
    unfold CircuitBreaker.beforeRequest
    simp [h]
    omega
  have hex : cb.execute fnErr tB tA = (some (.errorf (circuitOpenMsg cb.failures
      (truncSec (cb.resetTimeout - (tB - cb.lastFailure))))), cb, false) := by
    unfold CircuitBreaker.execute
    rw [hbr]
  rw [hex]
  refine ⟨rfl, rfl, ⟨durFmt (truncSec (cb.resetTimeout - (tB - cb.lastFailure))), rfl⟩, ?_⟩
  intro e hE
  have he2 : e = .errorf (circuitOpenMsg cb.failures
      (truncSec (cb.resetTimeout - (tB - cb.lastFailure)))) := by
    injection hE with h1
    exact h1.symm
  subst he2
  unfold errorsIs errCircuitOpen
  simp

theorem circuit_open_fail_fast_witness :
    ((⟨.open_, 1, 0, 5, 30000000000, 2, 0⟩ : CircuitBreaker).state = CBState.open_ ∧
      (1000000000 : Int) - (0 : Int) ≤ (30000000000 : Int)) ∧
    (((⟨.open_, 1, 0, 5, 30000000000, 2, 0⟩ : CircuitBreaker).execute none
        1000000000 1000000000).2.2 = false ∧
      ∀ e : GoError, ((⟨.open_, 1, 0, 5, 30000000000, 2, 0⟩ : CircuitBreaker).execute none
        1000000000 1000000000).1 = some e → errorsIs e errCircuitOpen = false) := by
  have h := circuit_open_fail_fast ⟨.open_, 1, 0, 5, 30000000000, 2, 0⟩ none
    1000000000 1000000000 rfl (by decide)
  exact ⟨⟨rfl, by decide⟩, h.1, h.2.2.2⟩

-- ── Lemmas: backoff loop ─────────────────────────────────────────────

theorem backoffLoop_exhausts (fn : Nat → Option GoError) (ctxDone : Nat → Bool)
    (jf : Nat → Int → Int) (b : Backoff) (mult maxD : Int) (N : Nat)
    (hN : b.maxAttempts = (N : Int)) (hNpos : 1 ≤ N)
    (hf : ∀ i, ∃ e, fn i = some e ∧ isPermanent e = false)
    (hc : ∀ i, ctxDone i = false) :
    ∀ (fuel attempt : Nat) (delay : Int) (calls : Nat) (sleeps : List Int),
      1 ≤ attempt → attempt ≤ N → attempt + fuel = N + 1 →
      ∃ sl eN, fn N = some eN ∧
        backoffLoop fn ctxDone jf b mult maxD fuel attempt delay calls sleeps =
          some ⟨some (.wrap ("max retries (" ++ intRepr b.maxAttempts ++ ") exceeded: ") eN),
            calls + fuel, sl⟩ := by
  intro fuel
  induction fuel with
  | zero =>
    intro attempt delay calls sleeps h1 h2 h3
    omega
  | succ fuel ih =>
    intro attempt delay calls sleeps h1 h2 h3
    obtain ⟨e, hfe, hfp⟩ := hf attempt
    simp only [backoffLoop, hfe]
    rw [if_neg (by simp [hfp])]
    by_cases hA : attempt = N
    · rw [if_pos ⟨by rw [hN]; exact_mod_cast hNpos, by rw [hN, hA]⟩]
      have hfuel0 : fuel = 0 := by omega
      subst hfuel0
      exact ⟨sleeps, e, hA ▸ hfe, rfl⟩
    · rw [if_neg (by rw [hN]; omega)]
      rw [if_neg (by simp [hc attempt])]
      obtain ⟨sl, eN, hfN, heq⟩ := ih (attempt + 1)
        (if delay * mult > maxD then maxD else delay * mult) (calls + 1)
        (sleeps ++ [if b.jitter then jf attempt delay else delay])
        (by omega) (by omega) (by omega)
      refine ⟨sl, eN, hfN, ?_⟩
      rw [heq]
      have harith : calls + 1 + fuel = calls + (fuel + 1) := by omega
      rw [harith]

/-- Claim C3: with `MaxAttempts = N > 0` and a callable that always
fails with a non-permanent error, `Backoff.Do` invokes the callable
exactly `N` times and returns the final error wrapped with
`"max retries (N) exceeded"`. -/
theorem backoff_max_attempts (b : Backoff) (fn : Nat → Option GoError)
    (ctxDone : Nat → Bool) (jf : Nat → Int → Int) (N : Nat)
    (hN : b.maxAttempts = (N : Int)) (hNpos : 1 ≤ N)
    (hf : ∀ i, ∃ e, fn i = some e ∧ isPermanent e = false)
    (hc : ∀ i, ctxDone i = false) :
    ∃ sl eN, fn N = some eN ∧
      b.doRun fn ctxDone jf N =
        some ⟨some (.wrap ("max retries (" ++ intRepr (N : Int) ++ ") exceeded: ") eN),
          N, sl⟩ := by
  unfold Backoff.doRun
  obtain ⟨sl, eN, hfN, heq⟩ := backoffLoop_exhausts fn ctxDone jf b
    (if b.multiplier ≤ 0 then 2 else b.multiplier)
    (if b.maxDelay = 0 then 60000000000 else b.maxDelay)
    N hN hNpos hf hc N 1
    (if b.initialDelay = 0 then 1000000000 else b.initialDelay) 0 []
    (le_refl 1) hNpos (by omega)
  refine ⟨sl, eN, hfN, ?_⟩
  rw [heq, hN]
  norm_num

theorem backoff_max_attempts_witness :
    ∃ sl eN, (fun _ : Nat => some (GoError.errorf "e")) 2 = some eN ∧
      Backoff.doRun ⟨0, 0, 0, 2, false⟩ (fun _ => some (.errorf "e")) (fun _ => false)
        (fun _ d => d) 2 =
        some ⟨some (.wrap ("max retries (" ++ intRepr (2 : Int) ++ ") exceeded: ") eN),
          2, sl⟩ :=
  backoff_max_attempts ⟨0, 0, 0, 2, false⟩ (fun _ => some (.errorf "e"))
    (fun _ => false) (fun _ d => d) 2 rfl (by decide)
    (fun _ => ⟨.errorf "e", rfl, rfl⟩) (fun _ => rfl)

/-- Claim C4: a callable whose first outcome is a permanently-wrapped
error is invoked exactly once; `Backoff.Do` returns the inner cause
unmodified (one unwrap step) and performs no sleeps. -/
theorem backoff_permanent (b : Backoff) (fn : Nat → Option GoError)
    (ctxDone : Nat → Bool) (jf : Nat → Int → Int) (fuel : Nat) (cause : GoError)
    (hfuel : 1 ≤ fuel) (h1 : fn 1 = some (.permanent cause)) :
    b.doRun fn ctxDone jf fuel = some ⟨some cause, 1, []⟩ := by
  unfold Backoff.doRun
  obtain ⟨fuel, rfl⟩ : ∃ f, fuel = f + 1 := ⟨fuel - 1, by omega⟩
  simp only [backoffLoop, h1]
  rfl

theorem backoff_permanent_witness :
    Backoff.doRun ⟨0, 0, 0, 3, false⟩ (fun _ => some (.permanent (.new "cause")))
      (fun _ => false) (fun _ d => d) 3 = some ⟨some (.new "cause"), 1, []⟩ :=
  backoff_permanent ⟨0, 0, 0, 3, false⟩ (fun _ => some (.permanent (.new "cause")))
    (fun _ => false) (fun _ d => d) 3 (.new "cause") (by decide) rfl

/-- If `Validate` returns nil, none of its checked conditions held. -/
theorem validate_eq_none (c : Config) (h : validate c = none) :
    ¬(c.Listen ∧ c.LocalPort = 0) ∧
    ¬(c.Listen ∧ c.ZeroIO) ∧
    ¬(c.Listen ∧ c.TunnelEnabled) ∧
    ¬(¬c.Listen ∧ c.Host = "" ∧ ¬c.ReverseTunnelEnabled) ∧
    ¬(¬c.Listen ∧ c.Port = 0 ∧ c.Ports = [] ∧ ¬c.ReverseTunnelEnabled) ∧
    ¬(c.ReverseTunnelEnabled ∧ ¬c.Listen) ∧
    ¬(c.ReverseTunnelEnabled ∧ c.RemotePort = 0) ∧
    ¬(c.ReverseTunnelEnabled ∧ (c.RemotePort < 1 ∨ c.RemotePort > 65535)) ∧
    ¬(c.ReverseTunnelEnabled ∧ c.ReverseTunnelHost = "") ∧
    ¬(c.ReverseTunnelEnabled ∧ c.TunnelEnabled) ∧
    ¬(c.ReverseTunnelEnabled ∧ c.UDP) ∧
    ¬(c.Execute ≠ "" ∧ c.Command ≠ "") ∧
    ¬(c.UDP ∧ c.TunnelEnabled) ∧
    ¬(c.TunnelEnabled ∧ c.TunnelHost = "") := by
  unfold validate at h
  by_cases h1 : c.Listen ∧ c.LocalPort = 0
  · rw [if_pos h1] at h
    exact absurd h (by simp)
  rw [if_neg h1] at h
  by_cases h2 : c.Listen ∧ c.ZeroIO
  · rw [if_pos h2] at h
    exact absurd h (by simp)
  rw [if_neg h2] at h
  by_cases h3 : c.Listen ∧ c.TunnelEnabled
  · rw [if_pos h3] at h
    exact absurd h (by simp)
  rw [if_neg h3] at h
  by_cases h4 : ¬c.Listen ∧ c.Host = "" ∧ ¬c.ReverseTunnelEnabled
  · rw [if_pos h4] at h
    exact absurd h (by simp)
  rw [if_neg h4] at h
  by_cases h5 : ¬c.Listen ∧ c.Port = 0 ∧ c.Ports = [] ∧ ¬c.ReverseTunnelEnabled
  · rw [if_pos h5] at h
    exact absurd h (by simp)
  rw [if_neg h5] at h
  by_cases h6 : c.ReverseTunnelEnabled ∧ ¬c.Listen
  · rw [if_pos h6] at h
    exact absurd h (by simp)
  rw [if_neg h6] at h
  by_cases h7 : c.ReverseTunnelEnabled ∧ c.RemotePort = 0
  · rw [if_pos h7] at h
    exact absurd h (by simp)
  rw [if_neg h7] at h
  by_cases h8 : c.ReverseTunnelEnabled ∧ (c.RemotePort < 1 ∨ c.RemotePort > 65535)
  · rw [if_pos h8] at h
    exact absurd h (by simp)
  rw [if_neg h8] at h
  by_cases h9 : c.ReverseTunnelEnabled ∧ c.ReverseTunnelHost = ""
  · rw [if_pos h9] at h
    exact absurd h (by simp)
  rw [if_neg h9] at h
  by_cases h10 : c.ReverseTunnelEnabled ∧ c.TunnelEnabled
  · rw [if_pos h10] at h
    exact absurd h (by simp)
  rw [if_neg h10] at h
  by_cases h11 : c.ReverseTunnelEnabled ∧ c.UDP
  · rw [if_pos h11] at h
    exact absurd h (by simp)
  rw [if_neg h11] at h
  by_cases h12 : c.Execute ≠ "" ∧ c.Command ≠ ""
  · rw [if_pos h12] at h
    exact absurd h (by simp)
  rw [if_neg h12] at h
  by_cases h13 : c.UDP ∧ c.TunnelEnabled
  · rw [if_pos h13] at h
    exact absurd h (by simp)
  rw [if_neg h13] at h
  by_cases h14 : c.TunnelEnabled ∧ c.TunnelHost = ""
  · rw [if_pos h14] at h
    exact absurd h (by simp)
  rw [if_neg h14] at h
  exact ⟨h1, h2, h3, h4, h5, h6, h7, h8, h9, h10, h11, h12, h13, h14⟩

/-- Every error `Validate` constructs carries a populated field. -/
theorem validate_field_nonempty (c : Config) (e : ConfigError)
    (h : validate c = some e) : e.field ≠ "" := by
  unfold validate at h
  by_cases h1 : c.Listen ∧ c.LocalPort = 0
  · rw [if_pos h1] at h
    injection h with h2
    subst h2
    decide
  rw [if_neg h1] at h
  by_cases h2 : c.Listen ∧ c.ZeroIO
  · rw [if_pos h2] at h
    injection h with h2
    subst h2
    decide
  rw [if_neg h2] at h
  by_cases h3 : c.Listen ∧ c.TunnelEnabled
  · rw [if_pos h3] at h
    injection h with h2
    subst h2
    decide
  rw [if_neg h3] at h
  by_cases h4 : ¬c.Listen ∧ c.Host = "" ∧ ¬c.ReverseTunnelEnabled
  · rw [if_pos h4] at h
    injection h with h2
    subst h2
    decide
  rw [if_neg h4] at h
  by_cases h5 : ¬c.Listen ∧ c.Port = 0 ∧ c.Ports = [] ∧ ¬c.ReverseTunnelEnabled
  · rw [if_pos h5] at h
    injection h with h2
    subst h2
    decide
  rw [if_neg h5] at h
  by_cases h6 : c.ReverseTunnelEnabled ∧ ¬c.Listen
  · rw [if_pos h6] at h
    injection h with h2
    subst h2
    decide
  rw [if_neg h6] at h
  by_cases h7 : c.ReverseTunnelEnabled ∧ c.RemotePort = 0
  · rw [if_pos h7] at h
    injection h with h2
    subst h2
    decide
  rw [if_neg h7] at h
  by_cases h8 : c.ReverseTunnelEnabled ∧ (c.RemotePort < 1 ∨ c.RemotePort > 65535)
  · rw [if_pos h8] at h
    injection h with h2
    subst h2
    simp
  rw [if_neg h8] at h
  by_cases h9 : c.ReverseTunnelEnabled ∧ c.ReverseTunnelHost = ""
  · rw [if_pos h9] at h
    injection h with h2
    subst h2
    decide
  rw [if_neg h9] at h
  by_cases h10 : c.ReverseTunnelEnabled ∧ c.TunnelEnabled
  · rw [if_pos h10] at h
    injection h with h2
    subst h2
    decide
  rw [if_neg h10] at h
  by_cases h11 : c.ReverseTunnelEnabled ∧ c.UDP
  · rw [if_pos h11] at h
    injection h with h2
    subst h2
    decide
  rw [if_neg h11] at h
  by_cases h12 : c.Execute ≠ "" ∧ c.Command ≠ ""
  · rw [if_pos h12] at h
    injection h with h2
    subst h2
    decide
  rw [if_neg h12] at h
  by_cases h13 : c.UDP ∧ c.TunnelEnabled
  · rw [if_pos h13] at h
    injection h with h2
    subst h2
    decide
  rw [if_neg h13] at h
  by_cases h14 : c.TunnelEnabled ∧ c.TunnelHost = ""
  · rw [if_pos h14] at h
    injection h with h2
    subst h2
    decide
  rw [if_neg h14] at h
  exact absurd h (by simp)

/-- Claim C7: `Validate` is a pure function of the configuration (hence
deterministic); for every configuration violating one of the listed
invariants it returns a `ConfigError` whose `field` is populated. -/
theorem validate_rejects_violations (c : Config) :
    ((c.Listen ∧ c.LocalPort = 0) ∨
     (c.Listen ∧ c.ZeroIO) ∨
     (c.Listen ∧ c.TunnelEnabled) ∨
     (¬c.Listen ∧ ¬c.ReverseTunnelEnabled ∧ (c.Host = "" ∨ (c.Port = 0 ∧ c.Ports = []))) ∨
     (c.ReverseTunnelEnabled ∧ ¬c.Listen) ∨
     (c.ReverseTunnelEnabled ∧ (c.RemotePort < 1 ∨ c.RemotePort > 65535)) ∨
     (c.ReverseTunnelEnabled ∧ c.ReverseTunnelHost = "") ∨
     (c.ReverseTunnelEnabled ∧ c.UDP) ∨
     (c.ReverseTunnelEnabled ∧ c.TunnelEnabled) ∨
     (c.Execute ≠ "" ∧ c.Command ≠ "") ∨
     (c.UDP ∧ c.TunnelEnabled)) →
    ∃ e : ConfigError, validate c = some e ∧ e.field ≠ "" := by
  intro hviol
  cases hval : validate c with
  | some e => exact ⟨e, rfl, validate_field_nonempty c e hval⟩
  | none =>
    exfalso
    obtain ⟨n1, n2, n3, n4, n5, n6, n7, n8, n9, n10, n11, n12, n13, n14⟩ :=
      validate_eq_none c hval
    rcases hviol with hv | hv | hv | hv | hv | hv | hv | hv | hv | hv | hv
    · exact n1 hv
    · exact n2 hv
    · exact n3 hv
    · rcases hv.2.2 with hh | hp
      · exact n4 ⟨hv.1, hh, hv.2.1⟩
      · exact n5 ⟨hv.1, hp.1, hp.2, hv.2.1⟩
    · exact n6 ⟨hv.1, hv.2⟩
    · exact n8 hv
    · exact n9 hv
    · exact n11 hv
    · exact n10 hv
    · exact n12 hv
    · exact n13 hv

/-- A listen-mode configuration with no local port, used as witness. -/
def cfgListenNoPort : Config where
  Host := ""
  Port := 0
  Ports := []
  LocalPort := 0
  Listen := true
  UDP := false
  Timeout := 0
  KeepOpen := false
  NoDNS := false
  TunnelSpec := ""
  TunnelEnabled := false
  TunnelUser := ""
  TunnelHost := ""
  TunnelPort := 0
  SSHKeyPath := ""
  SSHPassword := false
  UseSSHAgent := false
  StrictHostKey := false
  KnownHostsPath := ""
  TunnelLocalPort := 0
  ReverseTunnelSpec := ""
  ReverseTunnelEnabled := false
  ReverseTunnelUser := ""
  ReverseTunnelHost := ""
  ReverseTunnelPort := 0
  RemotePort := 0
  RemoteBindAddress := ""
  CheckGatewayPorts := false
  KeepAliveInterval := 0
  AutoReconnect := false
  Execute := ""
  Command := ""
  Verbose := 0
  ZeroIO := false
  DryRun := false

theorem validate_rejects_violations_witness :
    (cfgListenNoPort.Listen ∧ cfgListenNoPort.LocalPort = 0) ∧
    ∃ e : ConfigError, validate cfgListenNoPort = some e ∧ e.field ≠ "" :=
  ⟨⟨rfl, rfl⟩, validate_rejects_violations cfgListenNoPort (Or.inl ⟨rfl, rfl⟩)⟩

/-- An example dial function: port 80 on host `h` is open, everything
else refuses. -/
def scanDialEx : String → String → Option GoError :=
  fun _ addr => if addr = "h:80" then none else some (.errorf "connection refused")

/-- Claim C8: `ScanPorts` returns one result per input port, in input
order; entry `i` is `(port, open)` exactly when the dial function
succeeded for that port and `(port, !open, error)` when it failed.
Every slot of the result is defined — the `WaitGroup` is awaited before
returning, so no probe is dropped. -/
theorem scan_ports_fidelity (host : String) (ports : List Int)
    (dial : String → String → Option GoError) :
    (scanPorts host ports dial).length = ports.length ∧
    ∀ (i : Nat) (p : Int), ports[i]? = some p →
      (scanPorts host ports dial)[i]? =
        some (match dial "tcp" (formatAddr host p) with
          | none => ⟨p, true, none⟩
          | some e => ⟨p, false, some e⟩) := by
  refine ⟨by simp [scanPorts], ?_⟩
  intro i p hp
  unfold scanPorts
  rw [List.getElem?_map, hp, Option.map_some']
  cases dial "tcp" (formatAddr host p) <;> rfl

theorem scan_ports_fidelity_witness :
    (scanPorts "h" [80, 81] scanDialEx).length = 2 ∧
    (scanPorts "h" [80, 81] scanDialEx)[0]? = some ⟨80, true, none⟩ ∧
    (scanPorts "h" [80, 81] scanDialEx)[1]? =
      some ⟨81, false, some (.errorf "connection refused")⟩ := by
  have h := scan_ports_fidelity "h" [80, 81] scanDialEx
  refine ⟨h.1, ?_, ?_⟩
  · rw [h.2 0 80 rfl]
    decide
  · rw [h.2 1 81 rfl]
    decide

/-- Claim C9: the custom `forwarded-tcpip` listener accepts every
inbound channel of that type without consulting the bind-address fields
of the channel-open payload — replacing those fields changes nothing —
and it sets the surfaced connection's remote address from the payload's
`(OriginAddr, OriginPort)`.  The only failure is the transport's own
channel-accept error, never a bind-address mismatch. -/
theorem forwarded_accept_unconditional (ch : SSHNewChannel) (a : String) (p : Nat) :
    sshForwardListenerAccept (setBindFields ch a p) = sshForwardListenerAccept ch ∧
    (ch.acceptErr = none → ∃ conn, sshForwardListenerAccept ch = .ok conn) ∧
    (∀ pl, ch.acceptErr = none → ch.payload = some pl →
      sshForwardListenerAccept ch = .ok ⟨⟨pl.originAddr, pl.originPort⟩⟩) := by
  refine ⟨?_, ?_, ?_⟩
  · unfold sshForwardListenerAccept
    have hae : (setBindFields ch a p).acceptErr = ch.acceptErr := rfl
    rw [hae]
    cases hce : ch.acceptErr with
    | some e => rfl
    | none =>
      have hpl : (setBindFields ch a p).payload =
          ch.payload.map (fun pl => { pl with addr := a, port := p }) := rfl
      rw [hpl]
      cases ch.payload with
      | none => rfl
      | some pl => rfl
  · intro hae
    unfold sshForwardListenerAccept
    rw [hae]
    exact ⟨_, rfl⟩
  · intro pl hae hpl
    unfold sshForwardListenerAccept
    rw [hae, hpl]

theorem forwarded_accept_unconditional_witness :
    sshForwardListenerAccept
        (setBindFields ⟨some ⟨"0.0.0.0", 80, "203.0.113.5", 4242⟩, none⟩ "x" 9) =
      sshForwardListenerAccept ⟨some ⟨"0.0.0.0", 80, "203.0.113.5", 4242⟩, none⟩ ∧
    sshForwardListenerAccept ⟨some ⟨"0.0.0.0", 80, "203.0.113.5", 4242⟩, none⟩ =
      .ok ⟨⟨"203.0.113.5", 4242⟩⟩ := by
  have h := forwarded_accept_unconditional
    ⟨some ⟨"0.0.0.0", 80, "203.0.113.5", 4242⟩, none⟩ "x" 9
  exact ⟨h.1, h.2.2 ⟨"0.0.0.0", 80, "203.0.113.5", 4242⟩ rfl rfl⟩
